import Mathlib

/-!
Verification development for the IRIMO Telegram bot repository.

The definitions below are a shallow embedding of `src/bot_fixed.py` (the most
evolved variant of the bot, the one the design document describes): the quota
check (`can_download_daily` / `can_download_monthly` / `log_download`), the
callback debounce filter (`is_debounced`), the region/station catalog cache
(`_build_region_station_cache` realised as `REGION_TO_STATIONS` /
`get_stations_for`), the startup failure handling, the paginated keyboard
builder (`build_keyboard`), and the callback dispatch of `callback_handler`
(`callback_route` / `callback_station`).

Strings are modelled as `List Char`; SQLite TEXT comparison (`>=` on dates) is
byte-wise code-point comparison, modelled by `listLe`.  Timestamps
(`time.time()`) are modelled as rationals.  Each SQLite statement runs under
`DB_LOCK`, so a single statement is one atomic step; the interleaving model
`runSched` makes exactly those steps atomic.
-/

/-- Lexicographic `<=` on char lists: the byte-wise comparison SQLite applies
to TEXT values in `download_date >= month_start` (and Python applies when
sorting strings). -/
def listLe : List Char → List Char → Bool
  | [], _ => true
  | _ :: _, [] => false
  | a :: as, b :: bs =>
    if a.toNat < b.toNat then true
    else if a.toNat = b.toNat then listLe as bs
    else false

/-- First-match association-list lookup (model of a Python dict read; keys are
inserted at most once or overwritten in place, so first match is the value). -/
def lookupA {κ ν : Type} [DecidableEq κ] : List (κ × ν) → κ → Option ν
  | [], _ => none
  | (k, v) :: t, key => if k = key then some v else lookupA t key

/-- Overwrite-or-append association-list update (model of `d[key] = val`). -/
def setA {κ ν : Type} [DecidableEq κ] : List (κ × ν) → κ → ν → List (κ × ν)
  | [], key, val => [(key, val)]
  | (k, v) :: t, key, val =>
    if k = key then (key, val) :: t else (k, v) :: setA t key val

/-- `s.split(sep, 1)` at the first occurrence of `sep`; `none` when `sep` does
not occur (Python's `sep in s` is false). -/
def splitOnceAux (sep : List Char) : List Char → Option (List Char × List Char)
  | [] => none
  | c :: rest =>
    if sep.isPrefixOf (c :: rest) then some ([], (c :: rest).drop sep.length)
    else
      match splitOnceAux sep rest with
      | some (l, r) => some (c :: l, r)
      | none => none

/-- Python's `sep in s` for a non-empty separator. -/
def containsSub (sep s : List Char) : Bool := (splitOnceAux sep s).isSome

/-- Python's `s.split(c)` with a single-character separator and no limit. -/
def splitAll (c : Char) : List Char → List (List Char)
  | [] => [[]]
  | x :: xs =>
    if x = c then [] :: splitAll c xs
    else
      match splitAll c xs with
      | h :: t => (x :: h) :: t
      | [] => [[x]]

/-- Rows of `BUTTONS_PER_ROW = 2` buttons, as `build_keyboard` groups them. -/
def chunkRows {α : Type} : List α → List (List α)
  | [] => []
  | [a] => [[a]]
  | a :: b :: rest => [a, b] :: chunkRows rest

/-- The ASCII digit character for `n < 10`. -/
def digitCh (n : Nat) : Char := Char.ofNat (48 + n)

/-- Decimal rendering of a natural number, as Python's `str` produces it. -/
def natToChars (n : Nat) : List Char :=
  if _h : n < 10 then [digitCh n]
  else natToChars (n / 10) ++ [digitCh (n % 10)]
decreasing_by exact Nat.div_lt_self (by omega) (by omega)

/-- Decimal rendering of an integer, as Python's `str` produces it. -/
def intToChars (i : Int) : List Char :=
  if i < 0 then '-' :: natToChars i.natAbs else natToChars i.toNat

/-- ASCII digit test. -/
def isDigitCh (c : Char) : Bool := 48 ≤ c.toNat && c.toNat ≤ 57

/-- Value of a non-empty all-digit string. -/
def parseDigits (s : List Char) : Option Nat :=
  if s.isEmpty then none
  else if s.all isDigitCh then
    some (s.foldl (fun a c => a * 10 + (c.toNat - 48)) 0)
  else none

/-- Model of Python's `int(s)`: optional sign followed by digits; `none` models
the `ValueError` raised on anything else.  (Python additionally strips
whitespace and permits `_` digit separators, forms never minted by the bot's
encoder and not exercised by any theorem below.) -/
def parseInt? : List Char → Option Int
  | [] => none
  | c :: rest =>
    if c = '-' then (parseDigits rest).map fun n => -(n : Int)
    else if c = '+' then (parseDigits rest).map fun n => (n : Int)
    else (parseDigits (c :: rest)).map fun n => (n : Int)

/-- Effective index of a Python slice bound `i` into a list of length `len`. -/
def pyIdx (len : Nat) (i : Int) : Nat :=
  if i < 0 then len - min len i.natAbs else min i.toNat len

/-- Python's `l[s:e]` slice. -/
def pySlice {α : Type} (l : List α) (s e : Int) : List α :=
  (l.drop (pyIdx l.length s)).take (pyIdx l.length e - pyIdx l.length s)

-- Callback-data tokens used by `callback_handler` (as character lists).
def adminChars : List Char := ['a','d','m','i','n','_','r','e','p','o','r','t']
def pageSep : List Char := ['_','p','a','g','e','|']
def regionChars : List Char := ['r','e','g','i','o','n']
def regionSelChars : List Char := regionChars ++ ['|']
def stationChars : List Char := ['s','t','a','t','i','o','n']
def stationSelChars : List Char := stationChars ++ ['|']
def backChars : List Char :=
  ['b','a','c','k','_','t','o','_','p','r','o','v','i','n','c','e','s']

/-- A row of the `downloads` table: one download event. -/
structure DownloadEvent where
  user_id : Int
  username : List Char
  station_name : List Char
  download_date : List Char
deriving DecidableEq

/-- `today[:8] + "01"`: the first day of the month of an ISO date string. -/
def monthStartOf (today : List Char) : List Char := today.take 8 ++ ['0', '1']

/-- `can_download_daily`: exempt users always pass; otherwise pass iff the
ledger has no row for this user dated today (`SELECT 1 ... LIMIT 1` is None). -/
def can_download_daily (ex : List (List Char)) (led : List DownloadEvent)
    (uid : Int) (today : List Char) : Bool :=
  if intToChars uid ∈ ex then true
  else !(led.any fun e => e.user_id == uid && e.download_date == today)

/-- `SELECT COUNT(*) FROM downloads WHERE user_id=? AND download_date >= ?`. -/
def monthlyCount (led : List DownloadEvent) (uid : Int) (mstart : List Char) : Nat :=
  (led.filter fun e => e.user_id == uid && listLe mstart e.download_date).length

/-- `can_download_monthly`: exempt users always pass; otherwise pass iff fewer
than 10 rows for this user are dated on or after the first of this month. -/
def can_download_monthly (ex : List (List Char)) (led : List DownloadEvent)
    (uid : Int) (today : List Char) : Bool :=
  if intToChars uid ∈ ex then true
  else decide (monthlyCount led uid (monthStartOf today) < 10)

/-- `log_download`: append one row to the `downloads` table. -/
def log_download (led : List DownloadEvent) (uid : Int)
    (uname station today : List Char) : List DownloadEvent :=
  led ++ [⟨uid, uname, station, today⟩]

/-- The conjunction the station handler checks:
`not can_download_daily(...) or not can_download_monthly(...)` denies. -/
def canDownloadBoth (ex : List (List Char)) (led : List DownloadEvent)
    (uid : Int) (today : List Char) : Bool :=
  can_download_daily ex led uid today && can_download_monthly ex led uid today

-- ---------- Debounce filter ----------

abbrev DebKey := Int × Int
abbrev DebMap := List (DebKey × (List Char × ℚ))

/-- `DEBOUNCE_WINDOW_SECONDS = 1.5`. -/
def DEBOUNCE_WINDOW : ℚ := 3 / 2

/-- `is_debounced(chat_id, message_id, callback_data)` with the module-level
`_LAST_CALLBACK` map passed (and returned) explicitly. -/
def is_debounced (m : DebMap) (chat_id message_id : Int) (data : List Char)
    (now : ℚ) : Bool × DebMap :=
  match lookupA m (chat_id, message_id) with
  | some last =>
    if last.1 = data ∧ now - last.2 < DEBOUNCE_WINDOW then (true, m)
    else (false, setA m (chat_id, message_id) (data, now))
  | none => (false, setA m (chat_id, message_id) (data, now))

-- ---------- Catalog cache ----------

/-- The `Prop` form of `listLe`, used for sortedness statements. -/
def strLeP (a b : List Char) : Prop := listLe a b = true

instance : DecidableRel strLeP := fun _ _ => inferInstanceAs (Decidable (_ = true))

/-- Python's `sorted` on strings (code-point lexicographic order). -/
def sortStrs (l : List (List Char)) : List (List Char) :=
  List.insertionSort strLeP l

/-- The deduplicated `(region_name, station_name)` pairs (`.unique()`). -/
def uniquePairs (pairs : List (List Char × List Char)) :
    List (List Char × List Char) := pairs.dedup

/-- The station list built for one region: `sorted(list(set_of_stations))`. -/
def stationsOfPairs (pairs : List (List Char × List Char)) (r : List Char) :
    List (List Char) :=
  sortStrs (((uniquePairs pairs).filter fun p => p.1 = r).map Prod.snd).dedup

/-- `REGION_TO_STATIONS = {r: sorted(list(sts)) for r, sts in mapping.items()}`. -/
def REGION_TO_STATIONS (pairs : List (List Char × List Char)) :
    List (List Char × List (List Char)) :=
  (((uniquePairs pairs).map Prod.fst).dedup).map fun r => (r, stationsOfPairs pairs r)

/-- `REGIONS = sorted(REGION_TO_STATIONS.keys())`. -/
def REGIONS_of (pairs : List (List Char × List Char)) : List (List Char) :=
  sortStrs (((uniquePairs pairs).map Prod.fst).dedup)

/-- `get_stations_for`: `REGION_TO_STATIONS.get(region, [])`. -/
def get_stations_for (tbl : List (List Char × List (List Char))) (r : List Char) :
    List (List Char) :=
  (lookupA tbl r).getD []

/-- A catalog snapshot: the `REGIONS` list and the region→stations table. -/
abbrev Catalog := List (List Char) × List (List Char × List (List Char))

/-- The startup guard around `_build_region_station_cache()`: on success the
built catalog, on any exception an empty catalog plus one printed log line. -/
def startup_catalog (buildRes : Except (List Char) Catalog) :
    Catalog × List (List Char) :=
  match buildRes with
  | .ok c => (c, [])
  | .error e => (([], []), [e])

/-- `DATE_RANGE_CACHE`: `(region, station) -> (min_date, max_date)`. -/
abbrev DateRangeCache :=
  List ((List Char × List Char) × (Option (List Char) × Option (List Char)))

/-- `get_date_range`: `DATE_RANGE_CACHE.get((region, station), (None, None))`. -/
def get_date_range (cache : DateRangeCache) (region station : List Char) :
    Option (List Char) × Option (List Char) :=
  (lookupA cache (region, station)).getD (none, none)

-- ---------- Keyboard builder ----------

/-- A button: (label, callback_data). -/
abbrev Btn := List Char × List Char

def prevLabel : List Char := ['P','r','e','v']
def nextLabel : List Char := ['N','e','x','t']

/-- `math.ceil(len(options) / PAGE_SIZE) if options else 1` with PAGE_SIZE 16. -/
def totalPages (options : List (List Char)) : Nat :=
  if options.length = 0 then 1 else (options.length + 15) / 16

/-- `build_keyboard(options, callback_prefix, page)`: the grid of buttons as a
list of rows.  `page` is an `Int` because it comes from Python's `int()`. -/
def build_keyboard (options : List (List Char)) (pre : List Char) (page : Int) :
    List (List Btn) :=
  chunkRows ((pySlice options (page * 16) (page * 16 + 16)).map fun o => (o, pre ++ '|' :: o)) ++
  (if 1 < totalPages options then
    [(if 0 < page then [(prevLabel, pre ++ pageSep ++ intToChars (page - 1))] else []) ++
     (if page < (totalPages options : Int) - 1 then
        [(nextLabel, pre ++ pageSep ++ intToChars (page + 1))] else [])]
   else [])

-- ---------- Callback dispatch ----------

/-- What the body of `callback_handler` does with one callback string. `crash`
models an exception escaping the handler (there is no try/except around the
dispatch); `ignored` models falling through every branch and returning None. -/
inductive CbRoute where
  | adminReport
  | pageRegions (p : Int)
  | pageStations (region : List Char) (p : Int)
  | crash
  | backMenu
  | selectRegion (region : List Char)
  | selectStation (region station : List Char)
  | invalidSelection
  | ignored
deriving DecidableEq

/-- The back / region-select / station-select checks that follow the
pagination block of `callback_handler` (reached either when the data has no
`"_page|"` or when the pagination block falls through). -/
def routeRest (data : List Char) : CbRoute :=
  if data = backChars then .backMenu
  else if regionSelChars.isPrefixOf data then
    .selectRegion (data.drop regionSelChars.length)
  else if stationSelChars.isPrefixOf data then
    let parts := splitAll '|' data
    if parts.length < 3 then .invalidSelection
    else .selectStation (parts.getD 1 []) (parts.getLastD [])
  else .ignored

/-- The branch structure of `callback_handler` on `call.data`, after the
debounce check: admin report, then the `"_page|"` pagination block (whose
`int(page_str)` can raise, and which falls through when the page token's
head matches neither list kind), then the remaining checks. -/
def callback_route (isAdmin : Bool) (data : List Char) : CbRoute :=
  if data = adminChars ∧ isAdmin = true then .adminReport
  else
    match splitOnceAux pageSep data with
    | some pr =>
      match parseInt? pr.2 with
      | none => .crash
      | some p =>
        if regionChars.isPrefixOf pr.1 then .pageRegions p
        else if stationChars.isPrefixOf pr.1 then
          match splitOnceAux ['|'] pr.1 with
          | some qr => .pageStations qr.2 p
          | none => .ignored
        else routeRest data
    | none => routeRest data

/-- The navigation state a pagination token encodes: which list, which parent
region (for the station list), which page. -/
inductive NavToken where
  | regionsList (page : Nat)
  | stationsList (region : List Char) (page : Nat)
deriving DecidableEq

/-- The pagination callback strings minted by `build_keyboard` at its two call
sites (`callback_prefix = "region"` and `callback_prefix = f"station|{region}"`):
`f"{callback_prefix}_page|{page}"`. -/
def encodeNav : NavToken → List Char
  | .regionsList p => regionChars ++ (pageSep ++ natToChars p)
  | .stationsList r p => stationSelChars ++ (r ++ (pageSep ++ natToChars p))

-- ---------- The station-download flow ----------

inductive StationOutcome where
  | committed
  | denied
  | noData
  | sendFailed
deriving DecidableEq

structure StationResult where
  ledger : List DownloadEvent
  sentCsv : Bool
  outcome : StationOutcome
deriving DecidableEq

/-- The station-selection branch of `callback_handler`: quota check, date-range
lookup, CSV build+send, PDF send, and only then `log_download`.  `csvOk` models
whether `_send_station_csv` completes (a raised exception aborts the handler
before the log), `pdfOk` the same for `_send_pdf`. -/
def callback_station (ex : List (List Char)) (cache : DateRangeCache)
    (led : List DownloadEvent) (uid : Int) (uname region station today : List Char)
    (csvOk pdfOk : Bool) : StationResult :=
  if !(canDownloadBoth ex led uid today) then ⟨led, false, .denied⟩
  else
    match get_date_range cache region station with
    | (some _, some _) =>
      if csvOk then
        if pdfOk then ⟨log_download led uid uname station today, true, .committed⟩
        else ⟨led, true, .sendFailed⟩
      else ⟨led, false, .sendFailed⟩
    | _ => ⟨led, false, .noData⟩

-- ---------- Interleaving model of two concurrent station handlers ----------

/-- Program counters: 0 = about to run the quota SELECTs, 1 = observed
eligible, 2 = ran the INSERT (committed), 3 = denied. -/
structure RaceState where
  ledger : List DownloadEvent
  pc1 : Nat
  pc2 : Nat
deriving DecidableEq

/-- One atomic step of one handler thread.  Each SQLite statement runs under
`DB_LOCK`, so the quota check and the insert are each atomic, but nothing
makes the check-then-insert pair atomic. -/
def raceStep (ex : List (List Char)) (uid : Int) (uname station today : List Char)
    (led : List DownloadEvent) (pc : Nat) : List DownloadEvent × Nat :=
  if pc = 0 then
    if canDownloadBoth ex led uid today then (led, 1) else (led, 3)
  else if pc = 1 then (log_download led uid uname station today, 2)
  else (led, pc)

/-- Run an interleaving: `true` schedules thread 1, `false` thread 2. -/
def runSched (ex : List (List Char)) (uid : Int) (uname station today : List Char) :
    List Bool → RaceState → RaceState
  | [], s => s
  | b :: rest, s =>
    if b then
      let r := raceStep ex uid uname station today s.ledger s.pc1
      runSched ex uid uname station today rest ⟨r.1, r.2, s.pc2⟩
    else
      let r := raceStep ex uid uname station today s.ledger s.pc2
      runSched ex uid uname station today rest ⟨r.1, s.pc1, r.2⟩

-- ---------- Lemmas about the string order ----------

theorem listLe_total : ∀ a b : List Char, listLe a b = true ∨ listLe b a = true
  | [], _ => Or.inl rfl
  | _ :: _, [] => Or.inr rfl
  | a :: as, b :: bs => by
    rcases Nat.lt_trichotomy a.toNat b.toNat with h | h | h
    · left; simp [listLe, h]
    · rcases listLe_total as bs with ih | ih
      · left; simp [listLe, h, ih]
      · right; simp [listLe, h.symm, ih]
    · right; simp [listLe, h]

theorem listLe_trans : ∀ a b c : List Char,
    listLe a b = true → listLe b c = true → listLe a c = true
  | [], _, _, _, _ => rfl
  | _ :: _, [], _, h, _ => by simp [listLe] at h
  | _ :: _, _ :: _, [], _, h => by simp [listLe] at h
  | a :: as, b :: bs, c :: cs, h1, h2 => by
    simp only [listLe] at h1 h2 ⊢
    rcases Nat.lt_trichotomy a.toNat b.toNat with hab | hab | hab <;>
      rcases Nat.lt_trichotomy b.toNat c.toNat with hbc | hbc | hbc
    · simp [show a.toNat < c.toNat by omega]
    · simp [show a.toNat < c.toNat by omega]
    · simp [hab, Nat.lt_asymm hbc, show b.toNat ≠ c.toNat by omega] at h2
    · simp [show a.toNat < c.toNat by omega]
    · simp only [hab, hbc] at h1 h2 ⊢
      simp only [lt_self_iff_false, if_false, if_pos rfl] at h1 h2 ⊢
      exact listLe_trans as bs cs h1 h2
    · simp [hab, Nat.lt_asymm hbc, show b.toNat ≠ c.toNat by omega] at h2
    · simp [Nat.lt_asymm hab, show a.toNat ≠ b.toNat by omega] at h1
    · simp [Nat.lt_asymm hab, show a.toNat ≠ b.toNat by omega] at h1
    · simp [Nat.lt_asymm hab, show a.toNat ≠ b.toNat by omega] at h1

instance : IsTotal (List Char) strLeP := ⟨listLe_total⟩

instance : IsTrans (List Char) strLeP := ⟨fun a b c => listLe_trans a b c⟩

-- ---------- Lemmas about association lists ----------

theorem lookupA_setA_self {κ ν : Type} [DecidableEq κ] :
    ∀ (m : List (κ × ν)) (key : κ) (val : ν),
      lookupA (setA m key val) key = some val
  | [], key, val => by simp [setA, lookupA]
  | (a, b) :: t, key, val => by
    by_cases h : a = key
    · simp [setA, h, lookupA]
    · simp [setA, h, lookupA, lookupA_setA_self t key val]

theorem lookupA_map_self {ν : Type} (f : List Char → ν) :
    ∀ (l : List (List Char)) (x : List Char) (v : ν),
      lookupA (l.map fun r => (r, f r)) x = some v → v = f x
  | [], x, v, h => by simp [lookupA] at h
  | a :: t, x, v, h => by
    by_cases hax : a = x
    · subst hax
      simp [List.map, lookupA] at h
      exact h.symm
    · simp only [List.map, lookupA, if_neg hax] at h
      exact lookupA_map_self f t x v h

-- ---------- Prefix / split machinery ----------

theorem isPrefixOf_self_append : ∀ (s t : List Char), s.isPrefixOf (s ++ t) = true
  | [], _ => by simp [List.isPrefixOf]
  | a :: as, t => by simp [List.isPrefixOf, isPrefixOf_self_append as t]

theorem isPrefixOf_length_le : ∀ (t s u : List Char),
    t.isPrefixOf (s ++ u) = true → t.length ≤ s.length → t.isPrefixOf s = true
  | [], _, _, _, _ => by simp [List.isPrefixOf]
  | _ :: _, [], _, _, hl => by simp at hl
  | a :: t', b :: s', u, h, hl => by
    simp only [List.cons_append, List.isPrefixOf, Bool.and_eq_true, beq_iff_eq] at h ⊢
    exact ⟨h.1, isPrefixOf_length_le t' s' u h.2 (by simpa using hl)⟩

theorem isPrefixOf_split : ∀ (p sep X : List Char),
    p.length ≤ sep.length → sep.isPrefixOf (p ++ X) = true →
    (sep.drop p.length).isPrefixOf X = true
  | [], sep, X, _, h => by simpa using h
  | _ :: _, [], _, hl, _ => by simp at hl
  | a :: p', b :: sep', X, hl, h => by
    simp only [List.cons_append, List.isPrefixOf, Bool.and_eq_true] at h
    simpa [List.drop] using isPrefixOf_split p' sep' X (by simpa using hl) h.2

theorem splitOnceAux_cons_isSome (sep : List Char) (c : Char) (s' : List Char) :
    (splitOnceAux sep (c :: s')).isSome =
      (sep.isPrefixOf (c :: s') || (splitOnceAux sep s').isSome) := by
  rw [splitOnceAux]
  by_cases h : sep.isPrefixOf (c :: s') = true
  · simp [h]
  · rw [Bool.not_eq_true] at h
    rcases hs : splitOnceAux sep s' with _ | ⟨l, r⟩ <;> simp [h, hs]

theorem containsSub_of_suffix (sep : List Char) (hsep : sep ≠ []) :
    ∀ (s t : List Char), t <:+ s → sep.isPrefixOf t = true → containsSub sep s = true
  | [], t, hsuf, hpre => by
    rcases List.suffix_nil.mp hsuf with rfl
    cases sep with
    | nil => exact absurd rfl hsep
    | cons a as => simp [List.isPrefixOf] at hpre
  | c :: s', t, hsuf, hpre => by
    unfold containsSub
    rw [splitOnceAux_cons_isSome]
    rcases List.suffix_cons_iff.mp hsuf with rfl | hsuf'
    · simp [hpre]
    · have ih := containsSub_of_suffix sep hsep s' t hsuf' hpre
      unfold containsSub at ih
      simp [ih]

theorem splitOnceAux_append (sep : List Char) (hsep : sep ≠ []) :
    ∀ (pre rest : List Char),
      sep.isPrefixOf rest = true →
      (∀ p2, p2 <:+ pre → p2 ≠ [] → sep.isPrefixOf (p2 ++ rest) = false) →
      splitOnceAux sep (pre ++ rest) = some (pre, rest.drop sep.length)
  | [], rest, hpre, _ => by
    cases rest with
    | nil =>
      cases sep with
      | nil => exact absurd rfl hsep
      | cons a as => simp [List.isPrefixOf] at hpre
    | cons c r' =>
      simp only [List.nil_append]
      unfold splitOnceAux
      simp [hpre]
  | c :: pre', rest, hpre, hno => by
    have hhead : sep.isPrefixOf ((c :: pre') ++ rest) = false :=
      hno (c :: pre') (List.suffix_refl _) (by simp)
    have ih := splitOnceAux_append sep hsep pre' rest hpre
      (fun p2 hs hne => hno p2 (hs.trans (List.suffix_cons c pre')) hne)
    simp only [List.cons_append] at hhead ⊢
    unfold splitOnceAux
    simp [hhead, ih]

theorem splitOnceAux_clean (sep pre ds : List Char) (hsep : sep ≠ [])
    (hov : ∀ k, 0 < k → k < sep.length → (sep.drop k).isPrefixOf sep = false)
    (hnc : containsSub sep pre = false) :
    splitOnceAux sep (pre ++ sep ++ ds) = some (pre, ds) := by
  have h1 : sep.isPrefixOf (sep ++ ds) = true := isPrefixOf_self_append sep ds
  have h2 : ∀ p2, p2 <:+ pre → p2 ≠ [] → sep.isPrefixOf (p2 ++ (sep ++ ds)) = false := by
    intro p2 hsuf hne
    by_contra hcon
    rw [Bool.not_eq_false] at hcon
    by_cases hlen : sep.length ≤ p2.length
    · have hps := isPrefixOf_length_le sep p2 (sep ++ ds) hcon hlen
      have hcs := containsSub_of_suffix sep hsep pre p2 hsuf hps
      rw [hnc] at hcs
      exact Bool.false_ne_true hcs
    · push_neg at hlen
      have hd : (sep.drop p2.length).isPrefixOf (sep ++ ds) = true :=
        isPrefixOf_split p2 sep (sep ++ ds) (le_of_lt hlen) hcon
      have hd2 : (sep.drop p2.length).isPrefixOf sep = true :=
        isPrefixOf_length_le _ sep ds hd (by simp)
      have hz : 0 < p2.length := List.length_pos.mpr hne
      rw [hov p2.length hz hlen] at hd2
      exact Bool.false_ne_true hd2
  have hres := splitOnceAux_append sep hsep pre (sep ++ ds) h1 h2
  rw [List.append_assoc, hres, List.drop_left]

-- ---------- splitAll lemmas ----------

theorem splitAll_no_sep (c : Char) : ∀ (l : List Char), c ∉ l → splitAll c l = [l]
  | [], _ => rfl
  | x :: xs, h => by
    have hx : ¬ x = c := fun e => h (e ▸ List.mem_cons_self x xs)
    simp [splitAll, hx, splitAll_no_sep c xs (fun m => h (List.mem_cons_of_mem x m))]

theorem splitAll_head (c : Char) : ∀ (a r : List Char), c ∉ a →
    splitAll c (a ++ c :: r) = a :: splitAll c r
  | [], r, _ => by simp [splitAll]
  | x :: xs, r, h => by
    have hx : ¬ x = c := fun e => h (e ▸ List.mem_cons_self x xs)
    have ih := splitAll_head c xs r (fun m => h (List.mem_cons_of_mem x m))
    simp only [List.cons_append]
    rw [splitAll, if_neg hx, ih]

-- ---------- Decimal rendering lemmas ----------

theorem digitCh_toNat (d : Nat) (h : d < 10) : (digitCh d).toNat = 48 + d := by
  interval_cases d <;> decide

theorem isDigitCh_digitCh (d : Nat) (h : d < 10) : isDigitCh (digitCh d) = true := by
  interval_cases d <;> decide

theorem natToChars_all_digits (n : Nat) : (natToChars n).all isDigitCh = true := by
  induction n using Nat.strong_induction_on with
  | _ n ih =>
    rw [natToChars]
    by_cases h : n < 10
    · simp [h, isDigitCh_digitCh n h]
    · rw [dif_neg h, List.all_append]
      have h1 := ih (n / 10) (Nat.div_lt_self (by omega) (by omega))
      have h2 := isDigitCh_digitCh (n % 10) (Nat.mod_lt n (by omega))
      simp [h1, h2]

theorem natToChars_ne_nil (n : Nat) : natToChars n ≠ [] := by
  rw [natToChars]
  by_cases h : n < 10 <;> simp [h]

theorem natToChars_head_digit (n : Nat) :
    ∃ c rest, natToChars n = c :: rest ∧ isDigitCh c = true := by
  rcases hne : natToChars n with _ | ⟨c, rest⟩
  · exact absurd hne (natToChars_ne_nil n)
  · refine ⟨c, rest, rfl, ?_⟩
    have hall := natToChars_all_digits n
    rw [hne, List.all_cons, Bool.and_eq_true] at hall
    exact hall.1

theorem foldl_natToChars (n : Nat) : ∀ (a : Nat),
    (natToChars n).foldl (fun a c => a * 10 + (c.toNat - 48)) a =
      a * 10 ^ (natToChars n).length + n := by
  induction n using Nat.strong_induction_on with
  | _ n ih =>
    intro a
    by_cases h : n < 10
    · rw [natToChars, dif_pos h]
      simp only [List.foldl, List.length_singleton, pow_one, digitCh_toNat n h,
        Nat.add_sub_cancel_left]
    · rw [natToChars, dif_neg h]
      rw [List.foldl_append, ih (n / 10) (Nat.div_lt_self (by omega) (by omega)) a]
      simp only [List.foldl, List.length_append, List.length_singleton,
        digitCh_toNat (n % 10) (Nat.mod_lt n (by omega)), Nat.add_sub_cancel_left]
      rw [pow_succ]
      have hdm : n / 10 * 10 + n % 10 = n := by omega
      generalize (natToChars (n / 10)).length = L
      conv_rhs => rw [← hdm]
      ring

theorem parseDigits_natToChars (n : Nat) : parseDigits (natToChars n) = some n := by
  unfold parseDigits
  rw [if_neg, if_pos (natToChars_all_digits n)]
  · rw [foldl_natToChars n 0]
    simp
  · simp [List.isEmpty_iff, natToChars_ne_nil n]

theorem parseInt_natToChars (n : Nat) : parseInt? (natToChars n) = some (n : Int) := by
  rcases natToChars_head_digit n with ⟨c, rest, heq, hdig⟩
  rw [heq, parseInt?]
  have hc1 : ¬ c = '-' := by
    intro e; rw [e] at hdig; exact absurd hdig (by decide)
  have hc2 : ¬ c = '+' := by
    intro e; rw [e] at hdig; exact absurd hdig (by decide)
  rw [if_neg hc1, if_neg hc2, ← heq, parseDigits_natToChars n]
  simp

-- ---------- Route reduction helpers ----------

theorem pageSep_ov : ∀ k, k < pageSep.length → 0 < k →
    (pageSep.drop k).isPrefixOf pageSep = false := by decide

theorem cons_ne_cons_of_head {x y : Char} {l m : List Char} (hxy : x ≠ y) :
    x :: l ≠ y :: m := by
  intro h
  injection h with h1 _
  exact hxy h1

theorem splitOnce_region_page (ds : List Char) :
    splitOnceAux pageSep (regionChars ++ (pageSep ++ ds)) = some (regionChars, ds) := by
  have h := splitOnceAux_clean pageSep regionChars ds (by decide)
    (fun k h1 h2 => pageSep_ov k h2 h1) (by decide)
  simpa [List.append_assoc] using h

theorem splitOnce_station_page (r ds : List Char)
    (hr : containsSub pageSep (stationSelChars ++ r) = false) :
    splitOnceAux pageSep (stationSelChars ++ (r ++ (pageSep ++ ds))) =
      some (stationSelChars ++ r, ds) := by
  have h := splitOnceAux_clean pageSep (stationSelChars ++ r) ds (by decide)
    (fun k h1 h2 => pageSep_ov k h2 h1) hr
  simpa [List.append_assoc] using h

theorem splitOnce_station_inner (r : List Char) :
    splitOnceAux ['|'] (stationSelChars ++ r) = some (stationChars, r) := by
  have h := splitOnceAux_clean ['|'] stationChars r (by decide)
    (fun k h1 h2 => by simp at h2; omega) (by decide)
  simpa only [stationSelChars] using h

theorem route_region_page (a : Bool) (ds : List Char) :
    callback_route a (regionChars ++ (pageSep ++ ds)) =
      (match parseInt? ds with
        | none => CbRoute.crash
        | some p => CbRoute.pageRegions p) := by
  have hne : regionChars ++ (pageSep ++ ds) ≠ adminChars := by
    simp only [regionChars, pageSep, adminChars, List.cons_append]
    exact cons_ne_cons_of_head (by decide)
  rw [callback_route, if_neg (fun hcon => hne hcon.1)]
  rw [splitOnce_region_page ds]
  have hrp : regionChars.isPrefixOf regionChars = true := by decide
  rcases hpi : parseInt? ds with _ | p <;> simp [hpi, hrp]

theorem route_station_page (a : Bool) (r ds : List Char)
    (hr : containsSub pageSep (stationSelChars ++ r) = false) :
    callback_route a (stationSelChars ++ (r ++ (pageSep ++ ds))) =
      (match parseInt? ds with
        | none => CbRoute.crash
        | some p => CbRoute.pageStations r p) := by
  have hne : stationSelChars ++ (r ++ (pageSep ++ ds)) ≠ adminChars := by
    simp only [stationSelChars, stationChars, adminChars, List.cons_append]
    exact cons_ne_cons_of_head (by decide)
  have h1 : regionChars.isPrefixOf (stationSelChars ++ r) = false := by
    simp only [regionChars, stationSelChars, stationChars, List.cons_append,
      List.isPrefixOf]
    simp
  have h2 : stationChars.isPrefixOf (stationSelChars ++ r) = true := by
    simp [stationSelChars, List.append_assoc, isPrefixOf_self_append]
  rw [callback_route, if_neg (fun hcon => hne hcon.1)]
  rw [splitOnce_station_page r ds hr]
  rcases hpi : parseInt? ds with _ | p <;>
    simp [hpi, h1, h2, splitOnce_station_inner r]

theorem routeRest_station_short (r : List Char) (hp : '|' ∉ r) :
    routeRest (stationSelChars ++ r) = CbRoute.invalidSelection := by
  have hne : stationSelChars ++ r ≠ backChars := by
    simp only [stationSelChars, stationChars, backChars, List.cons_append]
    exact cons_ne_cons_of_head (by decide)
  have h1 : regionSelChars.isPrefixOf (stationSelChars ++ r) = false := by
    simp only [regionSelChars, regionChars, stationSelChars, stationChars,
      List.cons_append, List.isPrefixOf]
    simp
  have h2 : stationSelChars.isPrefixOf (stationSelChars ++ r) = true :=
    isPrefixOf_self_append _ r
  have hsp : splitAll '|' (stationSelChars ++ r) = [stationChars, r] := by
    have e1 : stationSelChars ++ r = stationChars ++ '|' :: r := by
      simp [stationSelChars, List.append_assoc]
    rw [e1, splitAll_head '|' stationChars r (by decide), splitAll_no_sep '|' r hp]
  rw [routeRest, if_neg hne, if_neg (by simp [h1]), if_pos h2]
  simp [hsp]

theorem route_ignored (a : Bool) (data : List Char)
    (h0 : ¬ (data = adminChars ∧ a = true))
    (h1 : splitOnceAux pageSep data = none)
    (h2 : data ≠ backChars)
    (h3 : regionSelChars.isPrefixOf data = false)
    (h4 : stationSelChars.isPrefixOf data = false) :
    callback_route a data = CbRoute.ignored := by
  rw [callback_route, if_neg h0]
  simp only [h1]
  rw [routeRest, if_neg h2, if_neg (by simp [h3]), if_neg (by simp [h4])]

theorem route_station_select_short (a : Bool) (r : List Char)
    (hsp : splitOnceAux pageSep (stationSelChars ++ r) = none)
    (hp : '|' ∉ r) :
    callback_route a (stationSelChars ++ r) = CbRoute.invalidSelection := by
  have hne : stationSelChars ++ r ≠ adminChars := by
    simp only [stationSelChars, stationChars, adminChars, List.cons_append]
    exact cons_ne_cons_of_head (by decide)
  rw [callback_route, if_neg (fun hcon => hne hcon.1)]
  simp only [hsp]
  exact routeRest_station_short r hp

theorem parseInt_letters (s : List Char) (hne : s ≠ [])
    (hall : s.all (fun c => 97 ≤ c.toNat && c.toNat ≤ 122) = true) :
    parseInt? s = none := by
  rcases s with _ | ⟨c, rest⟩
  · exact absurd rfl hne
  · rw [List.all_cons, Bool.and_eq_true] at hall
    have hc : 97 ≤ c.toNat ∧ c.toNat ≤ 122 := by simpa using hall.1
    have hm : ¬ c = '-' := by
      intro e; rw [e] at hc; exact absurd hc.1 (by decide)
    have hp2 : ¬ c = '+' := by
      intro e; rw [e] at hc; exact absurd hc.1 (by decide)
    have hnd : ¬ ((c :: rest).all isDigitCh = true) := by
      rw [List.all_cons, Bool.and_eq_true]
      rintro ⟨h2, -⟩
      simp [isDigitCh] at h2
      omega
    have hpd : parseDigits (c :: rest) = none := by
      rw [parseDigits, if_neg (by simp), if_neg hnd]
    rw [parseInt?, if_neg hm, if_neg hp2, hpd]
    rfl

-- ---------- Claim theorems ----------

/-- C1: for every non-exempt user the quota check (`can_download_daily` AND
`can_download_monthly`) passes iff the ledger holds no event for that user
dated today and fewer than 10 events for that user dated on or after the
first day of the current month; in particular, once 10 events dated in the
current month are on the ledger, the next check returns false. -/
theorem quota_check_iff (ex : List (List Char)) (led : List DownloadEvent)
    (uid : Int) (today : List Char) (hne : intToChars uid ∉ ex) :
    (canDownloadBoth ex led uid today = true ↔
      ((∀ e ∈ led, e.user_id = uid → e.download_date ≠ today) ∧
        monthlyCount led uid (monthStartOf today) < 10)) ∧
    (10 ≤ monthlyCount led uid (monthStartOf today) →
      canDownloadBoth ex led uid today = false) := by
  have hd : can_download_daily ex led uid today =
      !(led.any fun e => e.user_id == uid && e.download_date == today) := by
    rw [can_download_daily, if_neg hne]
  have hm : can_download_monthly ex led uid today =
      decide (monthlyCount led uid (monthStartOf today) < 10) := by
    rw [can_download_monthly, if_neg hne]
  constructor
  · rw [canDownloadBoth, hd, hm]
    simp [not_and]
  · intro h10
    rw [canDownloadBoth, hm]
    simp [decide_eq_false (by omega : ¬ monthlyCount led uid (monthStartOf today) < 10)]

theorem quota_check_iff_witness :
    canDownloadBoth [] [] 1 ("2026-10-12".data) = true :=
  (quota_check_iff [] [] 1 ("2026-10-12".data) (by simp)).1.mpr
    ⟨fun e he => absurd he (List.not_mem_nil e), by simp [monthlyCount]⟩

/-- C2 (code bug): the handler's quota re-check and its `log_download` insert
are each atomic under `DB_LOCK` but not jointly atomic.  In the interleaving
check₁, check₂, insert₁, insert₂ starting from a fresh ledger, both handler
threads observe "eligible" (pc 1) and both commit (pc 2), leaving TWO rows for
the same non-exempt user dated the same day — not "exactly one wins, the
loser is denied". -/
theorem race_double_commit :
    (runSched [] 1 ['u'] ['s'] ("2026-10-12".data) [true, false, true, false]
        ⟨[], 0, 0⟩).pc1 = 2 ∧
    (runSched [] 1 ['u'] ['s'] ("2026-10-12".data) [true, false, true, false]
        ⟨[], 0, 0⟩).pc2 = 2 ∧
    ((runSched [] 1 ['u'] ['s'] ("2026-10-12".data) [true, false, true, false]
        ⟨[], 0, 0⟩).ledger.filter fun e =>
          e.user_id == 1 && e.download_date == ("2026-10-12".data)).length = 2 := by
  decide

/-- C8: if the catalog build raises, startup swallows the exception, degrades
to an empty catalog (no regions, empty region→stations map), logs the failure,
and keeps serving: every station lookup yields the empty list and the root
keyboard renders no buttons ("no regions available"). -/
theorem build_failure_degrades (buildRes : Except (List Char) Catalog) (e : List Char)
    (h : buildRes = .error e) :
    startup_catalog buildRes = ((([], []) : Catalog), [e]) ∧
    (∀ r, get_stations_for (startup_catalog buildRes).1.2 r = []) ∧
    build_keyboard (startup_catalog buildRes).1.1 regionChars 0 = [] := by
  subst h
  refine ⟨rfl, fun r => rfl, ?_⟩
  rfl

theorem build_failure_degrades_witness :
    startup_catalog (.error ['b','o','o','m']) = ((([], []) : Catalog), [['b','o','o','m']]) :=
  (build_failure_degrades _ ['b','o','o','m'] rfl).1

/-- C9: for every region (known or unknown), the station list served from the
startup cache is lexicographically sorted and free of duplicates. -/
theorem stations_sorted_nodup (pairs : List (List Char × List Char)) (r : List Char) :
    (get_stations_for (REGION_TO_STATIONS pairs) r).Sorted strLeP ∧
    (get_stations_for (REGION_TO_STATIONS pairs) r).Nodup := by
  rw [get_stations_for, REGION_TO_STATIONS]
  rcases hlk : lookupA
      ((((uniquePairs pairs).map Prod.fst).dedup).map fun q => (q, stationsOfPairs pairs q)) r
    with _ | v
  · simp
  · have hv : v = stationsOfPairs pairs r :=
      lookupA_map_self (stationsOfPairs pairs) (((uniquePairs pairs).map Prod.fst).dedup) r v hlk
    subst hv
    simp only [Option.getD_some]
    constructor
    · exact List.sorted_insertionSort strLeP _
    · exact ((List.perm_insertionSort strLeP _).nodup_iff).mpr (List.nodup_dedup _)

/-- C10: if the (region, station) pair is absent from the startup date-range
cache — in particular whenever the cache build failed and left it empty — the
station flow takes the no-data path: the ledger is unchanged, no CSV is sent,
and (for an eligible user) the outcome is the "No data available" reply. -/
theorem missing_range_no_log (ex : List (List Char)) (cache : DateRangeCache)
    (led : List DownloadEvent) (uid : Int) (uname region station today : List Char)
    (csvOk pdfOk : Bool)
    (h : lookupA cache (region, station) = none) :
    (callback_station ex cache led uid uname region station today csvOk pdfOk).ledger = led ∧
    (callback_station ex cache led uid uname region station today csvOk pdfOk).sentCsv = false ∧
    (canDownloadBoth ex led uid today = true →
      (callback_station ex cache led uid uname region station today csvOk pdfOk).outcome =
        StationOutcome.noData) := by
  have hdr : get_date_range cache region station = (none, none) := by
    rw [get_date_range, h]
    rfl
  rw [callback_station]
  by_cases hq : canDownloadBoth ex led uid today = true
  · rw [if_neg (by simp [hq])]
    simp only [hdr]
    simp
  · rw [if_pos (by simp [Bool.not_eq_true] at hq ⊢; exact hq)]
    exact ⟨rfl, rfl, fun hc => absurd hc hq⟩

theorem missing_range_no_log_witness :
    (callback_station [] [] [] 1 ['u'] ['r'] ['s'] ("2026-10-12".data) true true).outcome =
      StationOutcome.noData :=
  (missing_range_no_log [] [] [] 1 ['u'] ['r'] ['s'] ("2026-10-12".data) true true rfl).2.2
    (by decide)

/-- C3: a downloads row is appended only after the export bytes were produced
and sent: whenever the station flow changes the ledger, the CSV build+send and
the PDF send both completed; contrapositively, a failed export (no data, or a
failure while building/sending) leaves no DownloadEvent. -/
theorem log_only_after_export (ex : List (List Char)) (cache : DateRangeCache)
    (led : List DownloadEvent) (uid : Int) (uname region station today : List Char)
    (csvOk pdfOk : Bool)
    (hch : (callback_station ex cache led uid uname region station today csvOk pdfOk).ledger
      ≠ led) :
    csvOk = true ∧ pdfOk = true ∧
      (callback_station ex cache led uid uname region station today csvOk pdfOk).sentCsv
        = true := by
  rcases hg : get_date_range cache region station with ⟨mn, mx⟩
  rw [callback_station, hg] at hch ⊢
  by_cases hq : (!(canDownloadBoth ex led uid today)) = true
  · rw [if_pos hq] at hch
    exact absurd rfl hch
  · rw [if_neg hq] at hch ⊢
    rcases mn with _ | mnv <;> rcases mx with _ | mxv <;>
      cases csvOk <;> cases pdfOk <;> simp_all

theorem log_only_after_export_witness :
    (callback_station [] [((['r'], ['s']), (some ['d'], some ['d']))] [] 1 ['u'] ['r'] ['s']
        ("2026-10-12".data) true true).sentCsv = true :=
  (log_only_after_export [] [((['r'], ['s']), (some ['d'], some ['d']))] [] 1 ['u'] ['r'] ['s']
    ("2026-10-12".data) true true (by decide)).2.2

theorem q_one_lt_window : (1 : ℚ) - 0 < DEBOUNCE_WINDOW := by
  rw [DEBOUNCE_WINDOW]
  norm_num

theorem q_window_le_two : DEBOUNCE_WINDOW ≤ (2 : ℚ) - 0 := by
  rw [DEBOUNCE_WINDOW]
  norm_num

/-- C4: `is_debounced` suppresses iff the map holds, for the same
(chat, message) key, an entry with the identical callback data and a timestamp
less than `DEBOUNCE_WINDOW` (1.5) ago; when it does not suppress it records
`(data, now)`; hence, starting from a fresh key, two identical taps within the
window yield exactly one non-suppressed effect, and a tap after the window
elapses yields a second effect. -/
theorem debounce_policy (m : DebMap) (c g : Int) (d : List Char) (now : ℚ) :
    ((is_debounced m c g d now).1 = true ↔
      ∃ ts, lookupA m (c, g) = some (d, ts) ∧ now - ts < DEBOUNCE_WINDOW) ∧
    ((is_debounced m c g d now).1 = false →
      (is_debounced m c g d now).2 = setA m (c, g) (d, now)) ∧
    (lookupA m (c, g) = none →
      (is_debounced m c g d now).1 = false ∧
      (∀ t1 : ℚ, t1 - now < DEBOUNCE_WINDOW →
        (is_debounced (is_debounced m c g d now).2 c g d t1).1 = true) ∧
      (∀ t1 : ℚ, DEBOUNCE_WINDOW ≤ t1 - now →
        (is_debounced (is_debounced m c g d now).2 c g d t1).1 = false)) := by
  rcases hlk : lookupA m (c, g) with _ | ⟨d0, ts0⟩
  · have h1 : is_debounced m c g d now = (false, setA m (c, g) (d, now)) := by
      rw [is_debounced, hlk]
    have h2 : lookupA (setA m (c, g) (d, now)) (c, g) = some (d, now) :=
      lookupA_setA_self m (c, g) (d, now)
    refine ⟨?_, fun _ => by rw [h1], fun _ => ⟨by rw [h1], ?_, ?_⟩⟩
    · rw [h1]
      simp [hlk]
    · intro t1 ht
      rw [h1, is_debounced, h2]
      simp [ht]
    · intro t1 ht
      rw [h1, is_debounced, h2]
      simp [not_lt.mpr ht]
  · have h1 : is_debounced m c g d now =
        (if d0 = d ∧ now - ts0 < DEBOUNCE_WINDOW then (true, m)
         else (false, setA m (c, g) (d, now))) := by
      rw [is_debounced, hlk]
    by_cases hcond : d0 = d ∧ now - ts0 < DEBOUNCE_WINDOW
    · obtain ⟨he, hw⟩ := hcond
      subst he
      rw [if_pos ⟨rfl, hw⟩] at h1
      refine ⟨?_, ?_, ?_⟩
      · rw [h1]
        exact ⟨fun _ => ⟨ts0, rfl, hw⟩, fun _ => rfl⟩
      · intro hf
        rw [h1] at hf
        simp at hf
      · intro h0
        simp [hlk] at h0
    · rw [if_neg hcond] at h1
      refine ⟨?_, fun _ => by rw [h1], ?_⟩
      · rw [h1]
        simp only [hlk, Option.some.injEq, Prod.mk.injEq, Bool.false_eq_true, false_iff,
          not_exists]
        rintro ts ⟨⟨he1, he2⟩, hlt⟩
        exact hcond ⟨he1, by rw [he2]; exact hlt⟩
      · intro h0
        simp [hlk] at h0

theorem debounce_policy_witness :
    (is_debounced [] 1 2 ['x'] 0).1 = false ∧
    (is_debounced (is_debounced [] 1 2 ['x'] 0).2 1 2 ['x'] 1).1 = true ∧
    (is_debounced (is_debounced [] 1 2 ['x'] 0).2 1 2 ['x'] 2).1 = false := by
  have h := (debounce_policy [] 1 2 ['x'] 0).2.2 rfl
  exact ⟨h.1, h.2.1 1 q_one_lt_window, h.2.2 2 q_window_le_two⟩

/-- C5 counterexample: for parent region name "a_page|b" and page 3, decoding
the minted token splits at the FIRST "_page|", hands "b_page|3" to `int()`
(which raises), and does not recover the encoded state — the round trip fails
for region names containing "_page|". -/
theorem nav_roundtrip_cex :
    callback_route false (encodeNav (.stationsList ['a','_','p','a','g','e','|','b'] 3)) ≠
      CbRoute.pageStations ['a','_','p','a','g','e','|','b'] 3 := by
  have h3 : natToChars 3 = ['3'] := by
    rw [natToChars]
    decide
  simp only [encodeNav, h3]
  decide

/-- C5 amended: the encode/decode round trip recovers the list kind, parent
region and page exactly, for every page number and every parent region name
that introduces no "_page|" occurrence into the token head (in particular any
name without the substring "_page|"); regions-list tokens always round-trip. -/
theorem nav_roundtrip_amended (a : Bool) (r : List Char) (p : Nat)
    (hr : containsSub pageSep (stationSelChars ++ r) = false) :
    callback_route a (encodeNav (.stationsList r p)) = CbRoute.pageStations r (p : Int) ∧
    callback_route a (encodeNav (.regionsList p)) = CbRoute.pageRegions (p : Int) := by
  constructor
  · show callback_route a (stationSelChars ++ (r ++ (pageSep ++ natToChars p))) = _
    rw [route_station_page a r (natToChars p) hr, parseInt_natToChars p]
  · show callback_route a (regionChars ++ (pageSep ++ natToChars p)) = _
    rw [route_region_page a (natToChars p), parseInt_natToChars p]

theorem nav_roundtrip_amended_witness :
    callback_route false (encodeNav (.stationsList ['T'] 0)) =
      CbRoute.pageStations ['T'] ((0 : Nat) : Int) :=
  (nav_roundtrip_amended false ['T'] 0 (by decide)).1

/-- C6 counterexample: the malformed page token "region_page|abc" does not
yield a handled Invalid outcome with a root-menu re-render: `int("abc")`
raises an uncaught ValueError that aborts the handler. -/
theorem malformed_token_cex :
    callback_route false
      ['r','e','g','i','o','n','_','p','a','g','e','|','a','b','c'] = CbRoute.crash := by
  decide

/-- C6 amended: a page token with a non-numeric (all-letters) suffix crashes
the handler with an uncaught ValueError; a "station|" selection payload with a
missing field gets the explicit "Invalid selection" reply; any callback that
matches no branch is silently ignored.  No malformed token silently picks a
default page, but none re-renders the root menu either. -/
theorem malformed_token_amended :
    (∀ (a : Bool) (s : List Char), s ≠ [] →
        s.all (fun ch => 97 ≤ ch.toNat && ch.toNat ≤ 122) = true →
        callback_route a (regionChars ++ (pageSep ++ s)) = CbRoute.crash) ∧
    (∀ (a : Bool) (r : List Char),
        splitOnceAux pageSep (stationSelChars ++ r) = none → '|' ∉ r →
        callback_route a (stationSelChars ++ r) = CbRoute.invalidSelection) ∧
    (∀ (a : Bool) (data : List Char), ¬(data = adminChars ∧ a = true) →
        splitOnceAux pageSep data = none → data ≠ backChars →
        regionSelChars.isPrefixOf data = false →
        stationSelChars.isPrefixOf data = false →
        callback_route a data = CbRoute.ignored) := by
  refine ⟨fun a s hne hall => ?_,
    fun a r h1 h2 => route_station_select_short a r h1 h2,
    fun a data h0 h1 h2 h3 h4 => route_ignored a data h0 h1 h2 h3 h4⟩
  rw [route_region_page a s, parseInt_letters s hne hall]

theorem malformed_token_amended_witness :
    callback_route false (regionChars ++ (pageSep ++ ['z'])) = CbRoute.crash ∧
    callback_route false (stationSelChars ++ ['T','e','h','r','a','n']) =
      CbRoute.invalidSelection ∧
    callback_route false ['h','e','l','l','o'] = CbRoute.ignored :=
  ⟨malformed_token_amended.1 false ['z'] (by decide) (by decide),
    malformed_token_amended.2.1 false ['T','e','h','r','a','n'] (by decide) (by decide),
    malformed_token_amended.2.2 false ['h','e','l','l','o'] (by decide) (by decide)
      (by decide) (by decide) (by decide)⟩

/-- C7 counterexample: with a one-station catalog page, requesting page 5
renders a keyboard with no buttons at all, while rendering the last valid page
(page 0) yields a non-empty keyboard — out-of-range pages are not clamped to
the last valid page. -/
theorem page_clamp_cex :
    build_keyboard [['a']] regionChars 5 = [] ∧
    build_keyboard [['a']] regionChars 0 ≠ [] := by
  constructor
  · decide
  · decide

/-- C7 amended: a decoded page at or beyond the page count is neither clamped
nor an error: the keyboard renders with no option buttons, only a Prev
navigation button when the list spans more than one page. -/
theorem page_overflow_amended (options : List (List Char)) (pre : List Char) (page : Int)
    (hp : (totalPages options : Int) ≤ page) :
    build_keyboard options pre page =
      (if 1 < totalPages options then
        [[(prevLabel, pre ++ pageSep ++ intToChars (page - 1))]]
       else []) := by
  have h1 : 1 ≤ totalPages options := by
    rw [totalPages]; split <;> omega
  have hlen : options.length ≤ 16 * totalPages options := by
    rw [totalPages]; split <;> omega
  have hpage : 0 < page := by omega
  have hbig : (options.length : Int) ≤ page * 16 := by
    have h2 : (options.length : Int) ≤ 16 * (totalPages options : Int) := by
      exact_mod_cast hlen
    omega
  have hstart : pyIdx options.length (page * 16) = options.length := by
    rw [pyIdx, if_neg (by omega), min_eq_right (by omega)]
  have hslice : pySlice options (page * 16) (page * 16 + 16) = [] := by
    rw [pySlice, hstart, List.drop_length, List.take_nil]
  rw [build_keyboard, hslice]
  simp only [List.map_nil, chunkRows, List.nil_append]
  by_cases ht : 1 < totalPages options
  · rw [if_pos ht, if_pos ht, if_pos hpage,
      if_neg (show ¬ page < (totalPages options : Int) - 1 by omega)]
    simp
  · rw [if_neg ht, if_neg ht]

theorem page_overflow_amended_witness :
    build_keyboard [['a']] stationSelChars 7 = [] := by
  rw [page_overflow_amended [['a']] stationSelChars 7 (by decide)]
  decide
